import Mathlib

/-!
# osi6_chat_client: scroll window, protocol dispatcher and line editor

A shallow embedding of `src/osi6_chat_client/client.cpp`.

* `std::string` and `std::wstring` are lists of characters; the deque
  `chat.client_messages_buf` is a list whose head is the deque's front.
* `boost::locale::conv::utf_to_utf` is a total function (its default method
  skips what it cannot convert); it is a parameter of every definition that
  calls it, so every theorem holds for any conversion.
* A C++ exception or undefined behaviour is a `Fault`; a function that can
  raise one returns `Except Fault _`.
* The socket is a trace: what `send_message` is called with, in order.
* Of the ncurses input window the number of columns `max_x` and the cursor
  column are kept: `wmove` fails outside the window and printing stops at the
  last column.
-/

namespace ChatClient

/-- The values of `enum Status`. -/
inductive Status
  | ERROR
  | SUCCESS
  | EXIT
  deriving DecidableEq, Repr

/-- Abnormal terminations: `std::out_of_range` thrown by `at`, `substr` and
`erase`, and the undefined behaviour of `front`/`back` on an empty deque or of
`insert` at an iterator outside the string. -/
inductive Fault
  | out_of_range
  | undefined_behaviour
  deriving DecidableEq, Repr

/-- Equality of results is decidable, so closed instances evaluate. -/
instance instDecidableEqExcept {ε α : Type} [DecidableEq ε] [DecidableEq α] :
    DecidableEq (Except ε α)
  | .ok a, .ok b => if h : a = b then isTrue (by rw [h]) else isFalse (by
      intro h1; cases h1; exact h rfl)
  | .error a, .error b => if h : a = b then isTrue (by rw [h]) else isFalse (by
      intro h1; cases h1; exact h rfl)
  | .ok _, .error _ => isFalse (by intro h; cases h)
  | .error _, .ok _ => isFalse (by intro h; cases h)

/-- A `std::string` (one `Char` per `char`). -/
abbrev Str := List Char

/-- A `std::wstring` (one `Char` per `wchar_t`). -/
abbrev WStr := List Char

/-- The deque `chat.client_messages_buf`; the head of the list is `front()`. -/
abbrev MessagesBuf := List WStr

/-- The value of `std::basic_string::npos`, the largest `size_t`. -/
def npos : Nat := 2 ^ 64 - 1

/-- Arithmetic on `size_t` wraps modulo `2 ^ 64`. -/
def size_t_wrap (n : Int) : Nat := (n % 2 ^ 64).toNat

/-- The call `s.find(c)`: the first position of `c`, or `npos`. -/
def find (s : List Char) (c : Char) : Nat :=
  if c ∈ s then s.indexOf c else npos

/-- The call `s.at(pos)`: throws `std::out_of_range` unless `pos < size()`. -/
def string_at (s : List Char) (pos : Nat) : Except Fault Char :=
  match s.get? pos with
  | some c => .ok c
  | none => .error .out_of_range

/-- The call `s.substr(pos, n)`: throws `std::out_of_range` when
`pos > size()`, otherwise the `min(n, size() - pos)` characters from `pos`. -/
def substr (s : List Char) (pos n : Nat) : Except Fault (List Char) :=
  if s.length < pos then .error .out_of_range else .ok ((s.drop pos).take n)

/-- The call `s.substr(pos)`: throws `std::out_of_range` when `pos > size()`,
otherwise everything from `pos` to the end. -/
def substr_to_end (s : List Char) (pos : Nat) : Except Fault (List Char) :=
  if s.length < pos then .error .out_of_range else .ok (s.drop pos)

/-- The literal `"/scroll_up"`. -/
def scroll_up_command : Str := "/scroll_up".toList

/-- The literal `"/scroll_down"`. -/
def scroll_down_command : Str := "/scroll_down".toList

/-- The function `process_server_command` (client.cpp 234-257) on the deque.
`pop_back` and `pop_front` are only reached on a non-empty deque, where they
are `dropLast` and `tail`. The C++ function always returns `SUCCESS`, which
its caller ignores. -/
def process_server_command (utf_to_utf : Str → WStr) (client_messages_buf : MessagesBuf)
    (command arguments : Str) : MessagesBuf :=
  if command = scroll_up_command then
    let buf := if !client_messages_buf.isEmpty then client_messages_buf.dropLast
      else client_messages_buf
    utf_to_utf arguments :: buf
  else if command = scroll_down_command then
    let buf := if !client_messages_buf.isEmpty then client_messages_buf.tail
      else client_messages_buf
    buf ++ [utf_to_utf arguments]
  else
    client_messages_buf

/-- The function `proccess_server_message` (client.cpp 259-278) on the deque:
`.ok` of the new deque when it returns (always with `SUCCESS`), `.error` when
an exception leaves it. -/
def proccess_server_message (utf_to_utf : Str → WStr) (client_messages_buf : MessagesBuf)
    (server_message : Str) : Except Fault MessagesBuf := do
  let first ← string_at server_message 0
  if first = '/' then
    let command ← substr server_message 0 (find server_message ' ')
    let arguments ← substr_to_end server_message
      (size_t_wrap (find server_message ' ' + 1))
    pure (process_server_command utf_to_utf client_messages_buf command arguments)
  else
    let buf := if client_messages_buf.length = 25 then client_messages_buf.tail
      else client_messages_buf
    pure (buf ++ [utf_to_utf server_message])

/-- The loop of `receiving_server_messages` (client.cpp 283-298) over the
lines its successive `recv` calls deliver with `ret_val >= 0` (a zero-length
receive delivers the empty line): each is handed to `proccess_server_message`;
an exception ends the thread. The redraw by `draw_chat_window` does not touch
the deque and is left out. -/
def receiving_server_messages (utf_to_utf : Str → WStr) (client_messages_buf : MessagesBuf) :
    List Str → Except Fault MessagesBuf
  | [] => .ok client_messages_buf
  | server_message :: rest => do
    let buf ← proccess_server_message utf_to_utf client_messages_buf server_message
    receiving_server_messages utf_to_utf buf rest

/-! ## The line editor `client_input` -/

/-- The struct `Client_input_result`. -/
structure Client_input_result where
  message_utf16 : WStr := []
  is_submitted : Bool := false
  is_scroll_up : Bool := false
  is_scoll_down : Bool := false
  deriving DecidableEq, Repr

/-- What one `wget_wch` call delivers: with `key_type == KEY_CODE_YES` one of
the five function keys the editor tests for or any other one, with
`key_type == OK` a wide character, or `ERR`. -/
inductive Key_event
  | KEY_BACKSPACE
  | KEY_LEFT
  | KEY_RIGHT
  | KEY_DOWN
  | KEY_UP
  | other_key_code
  | wide_char (key : Char)
  | ERR
  deriving DecidableEq, Repr

/-- The locals of `client_input` that live across iterations of its loop,
with the column of the input window's cursor (what `get_cursor_position`
reads at the top of an iteration). -/
structure Input_line where
  message_utf16 : WStr
  message_end_x : Int
  cursor_x : Int
  deriving DecidableEq, Repr

/-- The constant `message_start_x`. -/
def message_start_x : Int := 3

/-- The constant `input_start_x`. -/
def input_start_x : Int := 1

/-- The cursor position of the spec's InputLine: `cursor_x - message_start_x`. -/
def Input_line.cursor (line : Input_line) : Int := line.cursor_x - message_start_x

/-! The input window is `newwin(2, max_x, max_y - 2, 0)`: two rows and `max_x`
columns, numbered from 0. The editor prints on its last row and the window
does not scroll (`scrollok` is set on the chat window only). Of the window the
cursor column is kept; every character is taken to fill one column. -/

/-- The cursor column after `wmove(window, y, x)` with `y` a row of the
window: `x` when `0 <= x < max_x`; otherwise the call fails and the cursor
stays where it is. -/
def wmove (max_x cursor_x x : Int) : Int :=
  if 0 ≤ x ∧ x < max_x then x else cursor_x

/-- The cursor column after
`mvwprintw(window, input_start_y, input_start_x, "> %ls", message)`: the call
moves to column `input_start_x` of the last row (failing, with nothing
printed, when that is outside the window) and writes the two characters of the
prompt and the message; the cursor follows the text, and writing stops at the
last column, where the cursor stays. -/
def mvwprintw_prompt (max_x cursor_x : Int) (message : WStr) : Int :=
  if 0 ≤ input_start_x ∧ input_start_x < max_x then
    min (input_start_x + 2 + message.length) (max_x - 1)
  else cursor_x

/-- The cursor column after the redraw that follows an edit: `werase` (which
puts the cursor in column 0), `mvwprintw` of the prompt and the message,
`wrefresh`, and `wmove` to column `x`. -/
def redraw (max_x : Int) (message : WStr) (x : Int) : Int :=
  wmove max_x (mvwprintw_prompt max_x 0 message) x

/-- The state in which `client_input` enters its loop (client.cpp 56-70) in a
window of `max_x` columns whose cursor was in column `cursor_x_before`. -/
def client_input_start (max_x cursor_x_before : Int) (not_submitted_message : WStr) :
    Input_line :=
  { message_utf16 := not_submitted_message
    message_end_x := message_start_x + not_submitted_message.length
    cursor_x := mvwprintw_prompt max_x cursor_x_before not_submitted_message }

/-- The call `s.erase(pos, 1)` with an `int` argument: the argument converts
to `size_t`; throws `std::out_of_range` when the position is beyond `size()`,
otherwise removes the character there (none when it is `size()`). -/
def erase_one (s : WStr) (pos : Int) : Except Fault WStr :=
  if s.length < size_t_wrap pos then .error .out_of_range
  else .ok (s.eraseIdx (size_t_wrap pos))

/-- The call `s.insert(s.begin() + offset, c)`: undefined unless the iterator
lies in `[begin(), end()]`. -/
def insert_at (s : WStr) (offset : Int) (c : Char) : Except Fault WStr :=
  if 0 ≤ offset ∧ offset ≤ s.length then
    .ok (s.take offset.toNat ++ c :: s.drop offset.toNat)
  else .error .undefined_behaviour

/-- How one iteration of the loop of `client_input` ends: back at the top of
the loop, or with the function returning. -/
inductive Client_input_step
  | still_editing (line : Input_line)
  | returned (result : Client_input_result)
  deriving DecidableEq, Repr

/-- One iteration of the loop of `client_input` (client.cpp 72-140) in a
window of `max_x` columns. The cursor column the next iteration reads is the
one the redraw and `wmove` leave. -/
def client_input_key (max_x : Int) (line : Input_line) :
    Key_event → Except Fault Client_input_step
  | .KEY_BACKSPACE =>
    if line.message_utf16.isEmpty then .ok (.still_editing line)
    else do
      let message ← erase_one line.message_utf16 (line.cursor_x - message_start_x - 1)
      pure (.still_editing
        { message_utf16 := message
          message_end_x := line.message_end_x - 1
          cursor_x := redraw max_x message (line.cursor_x - 1) })
  | .KEY_LEFT =>
    if line.cursor_x = message_start_x then .ok (.still_editing line)
    else .ok (.still_editing
      { line with cursor_x := wmove max_x line.cursor_x (line.cursor_x - 1) })
  | .KEY_RIGHT =>
    if line.cursor_x = message_start_x + (line.message_utf16.length : Int) then
      .ok (.still_editing line)
    else .ok (.still_editing
      { line with cursor_x := wmove max_x line.cursor_x (line.cursor_x + 1) })
  | .KEY_DOWN =>
    .ok (.returned { message_utf16 := line.message_utf16, is_scoll_down := true })
  | .KEY_UP =>
    .ok (.returned { message_utf16 := line.message_utf16, is_scroll_up := true })
  | .other_key_code => .ok (.still_editing line)
  | .wide_char key =>
    if key = '\n' then
      .ok (.returned { message_utf16 := line.message_utf16, is_submitted := true })
    else do
      let message ←
        if line.cursor_x = line.message_end_x then
          pure (line.message_utf16 ++ [key])
        else insert_at line.message_utf16 (line.cursor_x - message_start_x) key
      pure (.still_editing
        { message_utf16 := message
          message_end_x := line.message_end_x + 1
          cursor_x := redraw max_x message (line.cursor_x + 1) })
  | .ERR => .ok (.still_editing line)

/-- The loop of `client_input` over the keys its successive `wget_wch` calls
deliver; `still_editing` at the end of the list means the loop waits for the
next key. -/
def client_input_keys (max_x : Int) (line : Input_line) :
    List Key_event → Except Fault Client_input_step
  | [] => .ok (.still_editing line)
  | key :: rest => do
    match ← client_input_key max_x line key with
    | .still_editing line1 => client_input_keys max_x line1 rest
    | .returned result => pure (.returned result)

/-- The function `client_input` (client.cpp 55-141) over a list of keys, in a
window of `max_x` columns whose cursor was in column `cursor_x_before`. -/
def client_input (max_x cursor_x_before : Int) (not_submitted_message : WStr)
    (keys : List Key_event) : Except Fault Client_input_step :=
  client_input_keys max_x (client_input_start max_x cursor_x_before not_submitted_message) keys

/-! ## The input loop `proccess_client` -/

/-- The literal `"/exit"`. -/
def exit_command : Str := "/exit".toList

/-- The call `buf.front()`: undefined on an empty deque. -/
def deque_front (client_messages_buf : MessagesBuf) : Except Fault WStr :=
  match client_messages_buf.head? with
  | some m => .ok m
  | none => .error .undefined_behaviour

/-- The call `buf.back()`: undefined on an empty deque. -/
def deque_back (client_messages_buf : MessagesBuf) : Except Fault WStr :=
  match client_messages_buf.getLast? with
  | some m => .ok m
  | none => .error .undefined_behaviour

/-- One iteration of the loop of `proccess_client` (client.cpp 305-328) once
`client_input` has returned `client_input_result`, with the deque as it is
then: the lines handed to `send_message`, in order, and `some EXIT` when the
function returns, `none` when the loop goes on. The status `send_message`
returns is ignored by the loop. -/
def proccess_client_iteration (utf_to_utf : WStr → Str) (client_messages_buf : MessagesBuf)
    (client_input_result : Client_input_result) : Except Fault (List Str × Option Status) :=
  if client_input_result.is_submitted then
    let client_message_utf8 := utf_to_utf client_input_result.message_utf16
    if client_message_utf8 = exit_command then .ok ([client_message_utf8], some .EXIT)
    else .ok ([client_message_utf8], none)
  else if client_input_result.is_scoll_down then do
    let back ← deque_back client_messages_buf
    let index ← substr back 0 (find back ' ')
    pure (["/scroll_down ".toList ++ utf_to_utf index], none)
  else if client_input_result.is_scroll_up then do
    let front ← deque_front client_messages_buf
    let index ← substr front 0 (find front ' ')
    pure (["/scroll_up ".toList ++ utf_to_utf index], none)
  else .ok ([], none)

/-- The loop of `proccess_client` (client.cpp 301-330) over the results of
its successive `client_input` calls, each paired with the deque as the
receiving thread has left it by then. `none` as status at the end of the list
means the loop waits for the next input. -/
def proccess_client (utf_to_utf : WStr → Str) :
    List (MessagesBuf × Client_input_result) → Except Fault (List Str × Option Status)
  | [] => .ok ([], none)
  | (client_messages_buf, client_input_result) :: rest => do
    let (sent, status) ←
      proccess_client_iteration utf_to_utf client_messages_buf client_input_result
    match status with
    | some s => pure (sent, some s)
    | none => do
      let (sent_later, status_later) ← proccess_client utf_to_utf rest
      pure (sent ++ sent_later, status_later)

/-! ## Predicates used to state the properties -/

/-- A plain server message: not empty and not starting with `/`. -/
def is_plain (server_message : Str) : Prop :=
  server_message ≠ [] ∧ server_message.head? ≠ some '/'

instance (server_message : Str) : Decidable (is_plain server_message) := by
  unfold is_plain; infer_instance

/-- The last `n` elements of a list, in order. -/
def last_n {α : Type} (n : Nat) (l : List α) : List α := l.drop (l.length - n)

/-- The invariant of the editor: the cursor addresses an insertion point of
the text, and `message_end_x` is the column right after the text. -/
def Input_line.well_formed (line : Input_line) : Prop :=
  0 ≤ line.cursor ∧ line.cursor ≤ line.message_utf16.length ∧
    line.message_end_x = message_start_x + line.message_utf16.length

instance (line : Input_line) : Decidable line.well_formed := by
  unfold Input_line.well_formed; infer_instance

/-- The keys that edit the line: a wide character other than the newline,
backspace, arrow-left and arrow-right. -/
def is_editing_key : Key_event → Prop
  | .wide_char key => key ≠ '\n'
  | .KEY_BACKSPACE => True
  | .KEY_LEFT => True
  | .KEY_RIGHT => True
  | _ => False

/-! ## Facts about the string primitives -/

theorem string_at_zero_cons (c : Char) (s : List Char) : string_at (c :: s) 0 = .ok c := rfl

theorem string_at_zero_nil : string_at [] 0 = .error .out_of_range := rfl

theorem substr_zero (s : List Char) (n : Nat) : substr s 0 n = .ok (s.take n) := by
  simp [substr]

theorem find_succ_wrap_le (s : List Char) (c : Char) :
    size_t_wrap (find s c + 1) ≤ s.length := by
  unfold find size_t_wrap
  split
  · rename_i hmem
    have hlt : s.indexOf c < s.length := List.indexOf_lt_length.mpr hmem
    omega
  · simp [npos]

theorem substr_to_end_find (s : List Char) (c : Char) :
    substr_to_end s (size_t_wrap (find s c + 1)) =
      .ok (s.drop (size_t_wrap (find s c + 1))) := by
  have h := find_succ_wrap_le s c
  simp [substr_to_end, Nat.not_lt.mpr h]

/-- On a line whose first character is not `/` the function takes the plain
branch. -/
theorem proccess_server_message_plain (utf_to_utf : Str → WStr) (w : MessagesBuf)
    (c : Char) (s : Str) (hc : c ≠ '/') :
    proccess_server_message utf_to_utf w (c :: s) =
      .ok ((if w.length = 25 then w.tail else w) ++ [utf_to_utf (c :: s)]) := by
  simp [proccess_server_message, string_at_zero_cons, hc, bind, Except.bind, pure, Except.pure]

/-- On a line whose first character is `/` the function splits at the first
space and hands both parts to `process_server_command`. -/
theorem proccess_server_message_command (utf_to_utf : Str → WStr) (w : MessagesBuf)
    (s : Str) :
    proccess_server_message utf_to_utf w ('/' :: s) =
      .ok (process_server_command utf_to_utf w
        (('/' :: s).take (find ('/' :: s) ' '))
        (('/' :: s).drop (size_t_wrap (find ('/' :: s) ' ' + 1)))) := by
  simp only [proccess_server_message, string_at_zero_cons, substr_zero, substr_to_end_find,
    bind, Except.bind, pure, Except.pure, if_true]

theorem process_server_command_length_le (utf_to_utf : Str → WStr) (w : MessagesBuf)
    (command arguments : Str) (hw : w.length ≤ 25) :
    (process_server_command utf_to_utf w command arguments).length ≤ 25 := by
  unfold process_server_command
  cases w with
  | nil => split_ifs <;> simp
  | cons x xs =>
    simp only [List.length_cons] at hw
    split_ifs <;> simp at * <;> omega

theorem proccess_server_message_of_plain (utf_to_utf : Str → WStr) (w : MessagesBuf)
    (m : Str) (hm : is_plain m) :
    proccess_server_message utf_to_utf w m =
      .ok ((if w.length = 25 then w.tail else w) ++ [utf_to_utf m]) := by
  cases m with
  | nil => exact absurd rfl hm.1
  | cons c s =>
    apply proccess_server_message_plain
    intro hc
    exact hm.2 (by simp [hc])

theorem last_n_step {α : Type} (w : List α) (x : α) (rest : List α) (hw : w.length ≤ 25) :
    last_n 25 (((if w.length = 25 then w.tail else w) ++ [x]) ++ rest) =
      last_n 25 (w ++ x :: rest) := by
  unfold last_n
  split_ifs with h
  · cases w with
    | nil => simp at h
    | cons b t =>
      simp only [List.length_cons] at h
      have e1 : (t ++ x :: rest).length - 25 = rest.length := by simp; omega
      have e2 : (b :: (t ++ x :: rest)).length - 25 = rest.length + 1 := by simp; omega
      simp only [List.tail_cons, List.cons_append, List.append_assoc, List.singleton_append,
        List.nil_append]
      rw [e1, e2, List.drop_succ_cons]
  · simp

/-- Feeding plain messages to a window of at most 25 elements leaves the last
25 elements of the window followed by the messages. -/
theorem receiving_plain_messages (utf_to_utf : Str → WStr) (msgs : List Str)
    (hplain : ∀ m ∈ msgs, is_plain m) (w : MessagesBuf) (hw : w.length ≤ 25) :
    receiving_server_messages utf_to_utf w msgs =
      .ok (last_n 25 (w ++ msgs.map utf_to_utf)) := by
  induction msgs generalizing w with
  | nil =>
    have h0 : w.length - 25 = 0 := by omega
    simp [receiving_server_messages, last_n, h0]
  | cons m rest ih =>
    have hm : is_plain m := hplain m (List.mem_cons_self _ _)
    have hrest : ∀ x ∈ rest, is_plain x := fun x hx => hplain x (List.mem_cons_of_mem _ hx)
    have hlen : ((if w.length = 25 then w.tail else w) ++ [utf_to_utf m]).length ≤ 25 := by
      split_ifs with h
      · simp; omega
      · simp; omega
    simp only [receiving_server_messages, proccess_server_message_of_plain utf_to_utf w m hm,
      bind, Except.bind]
    rw [ih hrest _ hlen, List.map_cons, last_n_step w _ _ hw]

theorem last_n_length_le {α : Type} (n : Nat) (l : List α) : (last_n n l).length ≤ n := by
  simp [last_n]; omega

theorem proccess_server_message_nonempty (utf_to_utf : Str → WStr) (w : MessagesBuf)
    (line : Str) (hline : line ≠ []) (hw : w.length ≤ 25) :
    ∃ w1, proccess_server_message utf_to_utf w line = .ok w1 ∧ w1.length ≤ 25 := by
  cases line with
  | nil => exact absurd rfl hline
  | cons c s =>
    by_cases hc : c = '/'
    · subst hc
      exact ⟨_, proccess_server_message_command utf_to_utf w s,
        process_server_command_length_le utf_to_utf w _ _ hw⟩
    · refine ⟨_, proccess_server_message_plain utf_to_utf w c s hc, ?_⟩
      split_ifs with h
      · simp; omega
      · simp; omega

theorem receiving_nonempty_lines (utf_to_utf : Str → WStr) (lines : List Str)
    (hlines : ∀ l ∈ lines, l ≠ []) (w : MessagesBuf) (hw : w.length ≤ 25) :
    ∃ w1, receiving_server_messages utf_to_utf w lines = .ok w1 ∧ w1.length ≤ 25 := by
  induction lines generalizing w with
  | nil => exact ⟨w, rfl, hw⟩
  | cons l rest ih =>
    obtain ⟨w1, h1, hw1⟩ := proccess_server_message_nonempty utf_to_utf w l
      (hlines l (List.mem_cons_self _ _)) hw
    obtain ⟨w2, h2, hw2⟩ := ih (fun x hx => hlines x (List.mem_cons_of_mem _ hx)) w1 hw1
    exact ⟨w2, by simp only [receiving_server_messages, h1, bind, Except.bind, h2], hw2⟩

/-! ## The claims about the scroll window -/

/-- C1: starting from the empty window, after more than 25 plain messages
(non-empty, not starting with `/`) handed one by one to
`proccess_server_message`, the window holds exactly the last 25 of them, in
the order received, and after every prefix of the sequence it holds at most
25. -/
theorem plain_ingestion_keeps_last_25 (utf_to_utf : Str → WStr) (msgs : List Str)
    (hplain : ∀ m ∈ msgs, is_plain m) (hN : 25 < msgs.length) :
    receiving_server_messages utf_to_utf [] msgs =
        .ok ((msgs.drop (msgs.length - 25)).map utf_to_utf) ∧
      ((msgs.drop (msgs.length - 25)).map utf_to_utf).length = 25 ∧
      ∀ k, k ≤ msgs.length →
        ∃ w, receiving_server_messages utf_to_utf [] (msgs.take k) = .ok w ∧
          w.length ≤ 25 := by
  refine ⟨?_, ?_, ?_⟩
  · rw [receiving_plain_messages utf_to_utf msgs hplain [] (by simp)]
    simp [last_n, List.map_drop]
  · simp; omega
  · intro k _
    refine ⟨_, receiving_plain_messages utf_to_utf (msgs.take k)
      (fun m hm => hplain m (List.mem_of_mem_take hm)) [] (by simp), ?_⟩
    exact last_n_length_le _ _

/-- C1 at a concrete input: 26 messages "0 m" .. "25 m" leave "1 m" .. "25 m". -/
theorem plain_ingestion_keeps_last_25_witness :
    receiving_server_messages id []
        ((List.range 26).map fun i => (toString i).toList ++ [' ', 'm']) =
      .ok ((List.range 26).tail.map fun i => (toString i).toList ++ [' ', 'm']) :=
  (plain_ingestion_keeps_last_25 id
    ((List.range 26).map fun i => (toString i).toList ++ [' ', 'm'])
    (by decide) (by decide)).1

/-- C10: a window of at most 25 messages still holds at most 25 after
`proccess_server_message` on any non-empty line (plain, `/scroll_up`,
`/scroll_down` or an unrecognized `/` command), and the call returns; hence
over any sequence of non-empty lines the size never passes 25, so the test
`size() == 25` is never skipped over. -/
theorem window_cap_invariant (utf_to_utf : Str → WStr) (w : MessagesBuf) (hw : w.length ≤ 25) :
    (∀ line : Str, line ≠ [] →
        ∃ w1, proccess_server_message utf_to_utf w line = .ok w1 ∧ w1.length ≤ 25) ∧
      ∀ lines : List Str, (∀ l ∈ lines, l ≠ []) →
        ∃ w1, receiving_server_messages utf_to_utf w lines = .ok w1 ∧ w1.length ≤ 25 :=
  ⟨fun line hline => proccess_server_message_nonempty utf_to_utf w line hline hw,
    fun lines hlines => receiving_nonempty_lines utf_to_utf lines hlines w hw⟩

/-- C10 at a concrete input: a full window of 25 messages and the four kinds
of line. -/
theorem window_cap_invariant_witness :
    (List.replicate 25 ['1', ' ', 'm']).length ≤ 25 ∧
      ∃ w1, receiving_server_messages id (List.replicate 25 ['1', ' ', 'm'])
          ["2 plain".toList, "/scroll_up 0 old".toList, "/scroll_down 3 new".toList,
            "/other".toList] = .ok w1 ∧ w1.length ≤ 25 :=
  ⟨by decide, (window_cap_invariant id (List.replicate 25 ['1', ' ', 'm']) (by decide)).2
    ["2 plain".toList, "/scroll_up 0 old".toList, "/scroll_down 3 new".toList,
      "/other".toList] (by decide)⟩

theorem scroll_up_prefix_eq :
    "/scroll_up ".toList = scroll_up_command ++ [' '] := by decide

theorem find_scroll_up_line (m : Str) : find (scroll_up_command ++ ' ' :: m) ' ' = 10 := by
  have hc : scroll_up_command = ['/', 's', 'c', 'r', 'o', 'l', 'l', '_', 'u', 'p'] := by decide
  rw [hc]
  simp [find, List.indexOf_cons]

/-- C9: receiving the line `"/scroll_up "` followed by a message `m` (spaces
allowed in `m`) puts `m` at the head of the window and removes the last
element of the window, if there is one; a window with indices 10..14
receiving `"/scroll_up 9 earlier msg"` then holds indices 9..13. -/
theorem scroll_up_line_slides_window (utf_to_utf : Str → WStr) (w : MessagesBuf) (m : Str) :
    proccess_server_message utf_to_utf w ("/scroll_up ".toList ++ m) =
        .ok (utf_to_utf m :: w.dropLast) ∧
      proccess_server_message id
          ["10 a".toList, "11 b".toList, "12 c".toList, "13 d".toList, "14 e".toList]
          "/scroll_up 9 earlier msg".toList =
        .ok ["9 earlier msg".toList, "10 a".toList, "11 b".toList, "12 c".toList,
          "13 d".toList] := by
  refine ⟨?_, by decide⟩
  have hline : "/scroll_up ".toList ++ m = '/' :: ("scroll_up ".toList ++ m) := by
    have : "/scroll_up ".toList = '/' :: "scroll_up ".toList := by decide
    rw [this]; rfl
  have hline2 : '/' :: ("scroll_up ".toList ++ m) = scroll_up_command ++ ' ' :: m := by
    rw [← hline, scroll_up_prefix_eq]; simp
  rw [hline, proccess_server_message_command, hline2, find_scroll_up_line]
  have hc : scroll_up_command = ['/', 's', 'c', 'r', 'o', 'l', 'l', '_', 'u', 'p'] := by decide
  have hw : size_t_wrap ((10 : Nat) + 1) = 11 := by decide
  have htake : (scroll_up_command ++ ' ' :: m).take 10 = scroll_up_command := by
    rw [hc]; rfl
  have hdrop : (scroll_up_command ++ ' ' :: m).drop 11 = m := by
    rw [hc]; rfl
  rw [htake]
  simp only [Nat.cast_ofNat] at hw ⊢
  rw [hw, hdrop]
  cases w with
  | nil => simp [process_server_command]
  | cons x xs => simp [process_server_command]

/-- C4, where the code departs from it: on the empty line `at(0)` throws
`std::out_of_range`, whatever the window, and the receiving loop ends with it. -/
theorem empty_line_throws (utf_to_utf : Str → WStr) (w : MessagesBuf) (rest : List Str) :
    proccess_server_message utf_to_utf w [] = .error .out_of_range ∧
      receiving_server_messages utf_to_utf w ([] :: rest) = .error .out_of_range :=
  ⟨rfl, rfl⟩

/-- C2: for every window `w` and every message `h`, the server command
`/scroll_up` with `h` and then `/scroll_down` with the message the scroll-up
evicted from the tail (a message that converts to the last element of `w`)
give back exactly `w`: same content, same order, same size. -/
theorem scroll_up_then_scroll_down_restores (utf_to_utf : Str → WStr) (w : MessagesBuf)
    (h a : Str) (hlast : w.getLast? = some (utf_to_utf a)) :
    process_server_command utf_to_utf
      (process_server_command utf_to_utf w scroll_up_command h) scroll_down_command a = w := by
  have hne : scroll_down_command ≠ scroll_up_command := by decide
  cases w with
  | nil => simp at hlast
  | cons x xs =>
    have hx : (x :: xs).dropLast ++ [utf_to_utf a] = x :: xs := by
      have h1 := List.dropLast_append_getLast? (utf_to_utf a) hlast
      exact h1
    simpa [process_server_command, hne] using hx

/-- C2 at a concrete input: window "10 a", "11 b", scroll-up with
"9 z", scroll-down with the evicted "11 b". -/
theorem scroll_up_then_scroll_down_restores_witness :
    process_server_command id
      (process_server_command id ["10 a".toList, "11 b".toList] scroll_up_command "9 z".toList)
      scroll_down_command "11 b".toList = ["10 a".toList, "11 b".toList] :=
  scroll_up_then_scroll_down_restores id ["10 a".toList, "11 b".toList] "9 z".toList
    "11 b".toList (by decide)

/-! ## The claims about the line editor -/

theorem wmove_inside (max_x cursor_x x : Int) (h0 : 0 ≤ x) (h1 : x < max_x) :
    wmove max_x cursor_x x = x := by
  simp [wmove, h0, h1]

theorem redraw_inside (max_x : Int) (message : WStr) (x : Int) (h0 : 0 ≤ x) (h1 : x < max_x) :
    redraw max_x message x = x :=
  wmove_inside max_x _ x h0 h1

/-- C5, where the code departs from it: text "ab" with the cursor at
position 0 satisfies the invariant, and backspace there makes `erase` throw
`std::out_of_range`; in a window of 80 columns the keys a, b, left, left,
backspace from the empty line reach it. -/
theorem backspace_at_line_start_throws :
    (0 : Int) ≤ (Input_line.mk ['a', 'b'] 5 3).cursor ∧
      (Input_line.mk ['a', 'b'] 5 3).cursor ≤ 2 ∧
      client_input 80 0 [] [.wide_char 'a', .wide_char 'b', .KEY_LEFT, .KEY_LEFT] =
        .ok (.still_editing ⟨['a', 'b'], 5, 3⟩) ∧
      client_input_key 80 ⟨['a', 'b'], 5, 3⟩ .KEY_BACKSPACE = .error .out_of_range ∧
      client_input 80 0 [] [.wide_char 'a', .wide_char 'b', .KEY_LEFT, .KEY_LEFT,
          .KEY_BACKSPACE] =
        .error .out_of_range := by
  decide

/-- Beside backspace at position 0 of a non-empty text, every editing key
keeps the editor editing and keeps its invariant, with the cursor inside the
window of `max_x` columns (the text is a `std::wstring`, so its length is below
`2 ^ 64`). -/
theorem editing_key_keeps_invariant (max_x : Int) (line : Input_line) (key : Key_event)
    (hwf : line.well_formed) (hin : line.cursor_x < max_x)
    (hsize : line.message_utf16.length < 2 ^ 64) (hkey : is_editing_key key)
    (hnot : ¬ (key = .KEY_BACKSPACE ∧ line.message_utf16 ≠ [] ∧ line.cursor = 0)) :
    ∃ line1, client_input_key max_x line key = .ok (.still_editing line1) ∧
      line1.well_formed ∧ line1.cursor_x < max_x := by
  obtain ⟨msg, end_x, cur_x⟩ := line
  obtain ⟨h0, h1, h2⟩ := hwf
  simp only [Input_line.cursor, message_start_x] at h0 h1 h2 hnot hsize hin
  have hprompt : (0 : Int) ≤ input_start_x ∧ input_start_x < max_x := by
    simp only [input_start_x]; omega
  cases key with
  | KEY_BACKSPACE =>
    cases msg with
    | nil =>
      refine ⟨_, rfl, ?_, hin⟩
      simp only [List.length_nil, Nat.cast_zero] at h1 h2
      simp only [Input_line.well_formed, Input_line.cursor, message_start_x, List.length_nil,
        Nat.cast_zero]
      omega
    | cons x xs =>
      have hpos : cur_x - 3 ≠ 0 := fun h => hnot ⟨rfl, by simp, h⟩
      simp only [List.length_cons, Nat.cast_add, Nat.cast_one] at h1 h2 hsize
      have hwrap : size_t_wrap (cur_x - message_start_x - 1) = (cur_x - 4).toNat := by
        simp only [size_t_wrap, message_start_x]
        omega
      have hle : ¬ (x :: xs).length < (cur_x - 4).toNat := by
        simp only [List.length_cons]; omega
      have herase : erase_one (x :: xs) (cur_x - message_start_x - 1) =
          .ok ((x :: xs).eraseIdx (cur_x - 4).toNat) := by
        unfold erase_one
        rw [hwrap, if_neg hle]
      have hmove : redraw max_x ((x :: xs).eraseIdx (cur_x - 4).toNat) (cur_x - 1) =
          cur_x - 1 := redraw_inside _ _ _ (by omega) (by omega)
      refine ⟨⟨(x :: xs).eraseIdx (cur_x - 4).toNat, end_x - 1, cur_x - 1⟩, ?_, ?_, ?_⟩
      · simp only [client_input_key, List.isEmpty_cons, herase, bind, Except.bind, pure,
          Except.pure, Bool.false_eq_true, if_false, hmove]
      · have hlen : ((x :: xs).eraseIdx (cur_x - 4).toNat).length = xs.length := by
          have hlt : (cur_x - 4).toNat < (x :: xs).length := by
            simp only [List.length_cons]; omega
          rw [List.length_eraseIdx, if_pos hlt]
          rfl
        simp only [Input_line.well_formed, Input_line.cursor, message_start_x, hlen]
        omega
      · simp only; omega
  | KEY_LEFT =>
    by_cases hc : cur_x = 3
    · refine ⟨⟨msg, end_x, cur_x⟩, by simp [client_input_key, message_start_x, hc], ?_, hin⟩
      simp only [Input_line.well_formed, Input_line.cursor, message_start_x]
      omega
    · have hmove : wmove max_x cur_x (cur_x - 1) = cur_x - 1 :=
        wmove_inside _ _ _ (by omega) (by omega)
      refine ⟨⟨msg, end_x, cur_x - 1⟩,
        by simp [client_input_key, message_start_x, hc, hmove], ?_, ?_⟩
      · simp only [Input_line.well_formed, Input_line.cursor, message_start_x]
        omega
      · simp only; omega
  | KEY_RIGHT =>
    by_cases hc : cur_x = 3 + (msg.length : Int)
    · refine ⟨⟨msg, end_x, cur_x⟩, by simp [client_input_key, message_start_x, hc], ?_, hin⟩
      simp only [Input_line.well_formed, Input_line.cursor, message_start_x]
      omega
    · refine ⟨⟨msg, end_x, wmove max_x cur_x (cur_x + 1)⟩,
        by simp [client_input_key, message_start_x, hc], ?_, ?_⟩
      · simp only [Input_line.well_formed, Input_line.cursor, message_start_x, wmove]
        split_ifs <;> omega
      · simp only [wmove]
        split_ifs <;> omega
  | wide_char c =>
    have hc : c ≠ '\n' := hkey
    have hcursor : ∀ message : WStr, (message.length : Int) = msg.length + 1 →
        0 ≤ redraw max_x message (cur_x + 1) - 3 ∧
          redraw max_x message (cur_x + 1) - 3 ≤ (msg.length : Int) + 1 ∧
          redraw max_x message (cur_x + 1) < max_x := by
      intro message hlen
      simp only [redraw, wmove, mvwprintw_prompt, if_pos hprompt, input_start_x, hlen]
      split_ifs <;> omega
    by_cases he : cur_x = end_x
    · refine ⟨⟨msg ++ [c], end_x + 1, redraw max_x (msg ++ [c]) (cur_x + 1)⟩, ?_, ?_, ?_⟩
      · simp [client_input_key, hc, he, bind, Except.bind, pure, Except.pure]
      · have h := hcursor (msg ++ [c]) (by simp)
        simp only [Input_line.well_formed, Input_line.cursor, message_start_x,
          List.length_append, List.length_singleton, Nat.cast_add, Nat.cast_one]
        omega
      · exact (hcursor (msg ++ [c]) (by simp)).2.2
    · have hins : insert_at msg (cur_x - message_start_x) c =
          .ok (msg.take (cur_x - 3).toNat ++ c :: msg.drop (cur_x - 3).toNat) := by
        have hr : 0 ≤ cur_x - 3 ∧ cur_x - 3 ≤ (msg.length : Int) := ⟨h0, h1⟩
        simp [insert_at, message_start_x, hr]
      have hlen : ((msg.take (cur_x - 3).toNat ++ c :: msg.drop (cur_x - 3).toNat).length : Int)
          = msg.length + 1 := by
        simp only [List.length_append, List.length_cons, List.length_take, List.length_drop,
          Nat.cast_add, Nat.cast_one]
        omega
      refine ⟨⟨msg.take (cur_x - 3).toNat ++ c :: msg.drop (cur_x - 3).toNat, end_x + 1,
        redraw max_x (msg.take (cur_x - 3).toNat ++ c :: msg.drop (cur_x - 3).toNat)
          (cur_x + 1)⟩, ?_, ?_, ?_⟩
      · simp only [client_input_key, hc, he, hins, if_false, bind, Except.bind, pure,
          Except.pure]
      · have h := hcursor _ hlen
        simp only [Input_line.well_formed, Input_line.cursor, message_start_x]
        omega
      · exact (hcursor _ hlen).2.2
  | KEY_DOWN => exact absurd hkey (by simp [is_editing_key])
  | KEY_UP => exact absurd hkey (by simp [is_editing_key])
  | other_key_code => exact absurd hkey (by simp [is_editing_key])
  | ERR => exact absurd hkey (by simp [is_editing_key])

/-- The invariant at a concrete input: backspace in the middle of "ab" in a
window of 80 columns. -/
theorem editing_key_keeps_invariant_witness :
    ∃ line1, client_input_key 80 ⟨['a', 'b'], 5, 4⟩ .KEY_BACKSPACE =
        .ok (.still_editing line1) ∧
      line1.well_formed ∧ line1.cursor_x < 80 :=
  editing_key_keeps_invariant 80 ⟨['a', 'b'], 5, 4⟩ .KEY_BACKSPACE (by decide) (by decide)
    (by decide) trivial (by decide)

/-! ## The claims about the input loop -/

/-- C3, where the code departs from it: with an empty window a scroll-up
intent reaches `front()` and a scroll-down intent reaches `back()` of an empty
deque, which is undefined behaviour, instead of sending nothing. -/
theorem scroll_intent_on_empty_window_is_undefined (utf_to_utf : WStr → Str)
    (message : WStr) :
    proccess_client_iteration utf_to_utf [] { message_utf16 := message, is_scroll_up := true } =
        .error .undefined_behaviour ∧
      proccess_client_iteration utf_to_utf []
          { message_utf16 := message, is_scoll_down := true } =
        .error .undefined_behaviour :=
  ⟨rfl, rfl⟩

/-- The part of C3 the code does: with a non-empty window a scroll-up intent
sends one line, `"/scroll_up "` and the converted text of the head element
before its first space, and a scroll-down intent sends `"/scroll_down "` and
that of the tail element. -/
theorem scroll_intent_on_nonempty_window (utf_to_utf : WStr → Str) (message : WStr)
    (w : MessagesBuf) (front back : WStr) (hfront : w.head? = some front)
    (hback : w.getLast? = some back) :
    proccess_client_iteration utf_to_utf w { message_utf16 := message, is_scroll_up := true } =
        .ok (["/scroll_up ".toList ++ utf_to_utf (front.take (find front ' '))], none) ∧
      proccess_client_iteration utf_to_utf w
          { message_utf16 := message, is_scoll_down := true } =
        .ok (["/scroll_down ".toList ++ utf_to_utf (back.take (find back ' '))], none) := by
  simp [proccess_client_iteration, deque_front, deque_back, hfront, hback, substr_zero,
    bind, Except.bind, pure, Except.pure]

/-- The scroll intents at a concrete input: with indices 10..14 in the window
arrow-up sends "/scroll_up 10" and arrow-down sends "/scroll_down 14". -/
theorem scroll_intent_on_nonempty_window_witness :
    proccess_client_iteration id
        ["10 a".toList, "11 b".toList, "12 c".toList, "13 d".toList, "14 e".toList]
        { is_scroll_up := true } = .ok (["/scroll_up 10".toList], none) ∧
      proccess_client_iteration id
        ["10 a".toList, "11 b".toList, "12 c".toList, "13 d".toList, "14 e".toList]
        { is_scoll_down := true } = .ok (["/scroll_down 14".toList], none) :=
  scroll_intent_on_nonempty_window id []
    ["10 a".toList, "11 b".toList, "12 c".toList, "13 d".toList, "14 e".toList]
    "10 a".toList "14 e".toList (by decide) (by decide)

/-- C8: when the submitted line is `"/exit"`, `proccess_client` sends exactly
that line and returns `EXIT`, whatever inputs would follow; for every other
submitted line it sends the line as it is and goes on with the next input. -/
theorem submitted_line_is_sent (utf_to_utf : WStr → Str) (w : MessagesBuf)
    (result : Client_input_result) (hsub : result.is_submitted = true)
    (rest : List (MessagesBuf × Client_input_result)) :
    (utf_to_utf result.message_utf16 = "/exit".toList →
        proccess_client utf_to_utf ((w, result) :: rest) =
          .ok (["/exit".toList], some Status.EXIT)) ∧
      (utf_to_utf result.message_utf16 ≠ "/exit".toList →
        proccess_client_iteration utf_to_utf w result =
            .ok ([utf_to_utf result.message_utf16], none) ∧
          proccess_client utf_to_utf ((w, result) :: rest) =
            (proccess_client utf_to_utf rest).map
              fun later => (utf_to_utf result.message_utf16 :: later.1, later.2)) := by
  constructor
  · intro h
    have h1 : utf_to_utf result.message_utf16 = exit_command := h
    simp only [proccess_client, proccess_client_iteration, hsub, h1, if_true, bind,
      Except.bind, pure, Except.pure]
    rfl
  · intro h
    have h1 : ¬ utf_to_utf result.message_utf16 = exit_command := h
    have hit : proccess_client_iteration utf_to_utf w result =
        .ok ([utf_to_utf result.message_utf16], none) := by
      simp only [proccess_client_iteration, hsub, h1, if_true, if_false]
    refine ⟨hit, ?_⟩
    simp only [proccess_client, hit, bind, Except.bind, pure, Except.pure]
    cases proccess_client utf_to_utf rest with
    | error e => rfl
    | ok later => rfl

/-- C8 at a concrete input: "hi" is sent and the loop goes on; "/exit" is sent,
the loop returns `EXIT` and the "late" after it is never sent. -/
theorem submitted_line_is_sent_witness :
    proccess_client id
        [([], { message_utf16 := "hi".toList, is_submitted := true }),
          ([], { message_utf16 := "/exit".toList, is_submitted := true }),
          ([], { message_utf16 := "late".toList, is_submitted := true })] =
      .ok (["hi".toList, "/exit".toList], some Status.EXIT) := by
  have h1 := (submitted_line_is_sent id []
    { message_utf16 := "hi".toList, is_submitted := true } rfl
    [([], { message_utf16 := "/exit".toList, is_submitted := true }),
      ([], { message_utf16 := "late".toList, is_submitted := true })]).2 (by decide)
  have h2 := (submitted_line_is_sent id []
    { message_utf16 := "/exit".toList, is_submitted := true } rfl
    [([], { message_utf16 := "late".toList, is_submitted := true })]).1 (by decide)
  rw [h1.2, h2]
  rfl

end ChatClient
